import Mathlib

/-!
Verification of the embedded biosignal-processing core of the repository
(`sketch_sep13a/sketch_sep13a.ino`): IIR biquad filters (Notch, EEGFilter,
ECGFilter), the adaptive peak detector (`Getpeak`), the RR-interval
plausibility filter, the per-block band-power computation
(`calculateBandpower`), the exponential smoothing (`smoothBandpower`) and
the externally reported beta/alpha metric printed by `processFFT`.

Machine `float` arithmetic is modelled as exact rational arithmetic (and as
real arithmetic where the source takes a square root); the guard structure
of the divisions is modelled explicitly.
-/

namespace Sketch

/-! ## Biquad filter sections

Each filter in the source is a cascade of second-order sections.  A section
holds two delay values `z1, z2` and five coefficients; one step computes
`x = input - a1*z1 - a2*z2`, outputs `b0*x + b1*z1 + b2*z2` and shifts the
delay line (`z2 ← z1`, `z1 ← x`).  This is a direct translation of the
blocks at lines 69-104 and 381-413 of the source. -/

structure BiquadCoeffs where
  a1 : ℚ
  a2 : ℚ
  b0 : ℚ
  b1 : ℚ
  b2 : ℚ
deriving Repr, DecidableEq

structure BiquadState where
  z1 : ℚ
  z2 : ℚ
deriving Repr, DecidableEq

/-- One step of a second-order section exactly as written in the source:
`x = input - a1*z1 - a2*z2; output = b0*x + b1*z1 + b2*z2; z2 = z1; z1 = x`. -/
def biquadStep (c : BiquadCoeffs) (s : BiquadState) (input : ℚ) : ℚ × BiquadState :=
  let x := input - c.a1 * s.z1 - c.a2 * s.z2
  (c.b0 * x + c.b1 * s.z1 + c.b2 * s.z2, ⟨x, s.z1⟩)

/-- The biquad step as the specification describes it, word for word:
`output = b0*x + z1` with `x = input - a1*z1 - a2*z2`, then `z2 ← z1`,
`z1 ← x`.  Written from the spec sentence, to be compared against
`biquadStep`, which is written from the source. -/
def biquadStepSpec (c : BiquadCoeffs) (s : BiquadState) (input : ℚ) : ℚ × BiquadState :=
  let x := input - c.a1 * s.z1 - c.a2 * s.z2
  (c.b0 * x + s.z1, ⟨x, s.z1⟩)

/-- First section of `Notch` (source lines 73-77). -/
def notchSec1 : BiquadCoeffs :=
  ⟨-1.56858163, 0.96424138, 0.96508099, -1.56202714, 0.96508099⟩

/-- Second section of `Notch` (source lines 80-84). -/
def notchSec2 : BiquadCoeffs :=
  ⟨-1.61100358, 0.96592171, 1.00000000, -1.61854514, 1.00000000⟩

/-- The single section of `EEGFilter` (source lines 97-101). -/
def eegSec : BiquadCoeffs :=
  ⟨-1.22465158, 0.45044543, 0.05644846, 0.11289692, 0.05644846⟩

/-- First section of `ECGFilter` (source lines 385-389). -/
def ecgSec1 : BiquadCoeffs :=
  ⟨0.70682283, 0.15621030, 0.28064917, 0.56129834, 0.28064917⟩

/-- Second section of `ECGFilter` (source lines 392-396). -/
def ecgSec2 : BiquadCoeffs :=
  ⟨0.95028224, 0.54073140, 1.00000000, 2.00000000, 1.00000000⟩

/-- Third section of `ECGFilter` (source lines 399-403). -/
def ecgSec3 : BiquadCoeffs :=
  ⟨-1.95360385, 0.95423412, 1.00000000, -2.00000000, 1.00000000⟩

/-- Fourth section of `ECGFilter` (source lines 406-410). -/
def ecgSec4 : BiquadCoeffs :=
  ⟨-1.98048558, 0.98111344, 1.00000000, -2.00000000, 1.00000000⟩

/-- State of `Notch`: the static `z1, z2` pairs of its two sections. -/
structure NotchState where
  s1 : BiquadState
  s2 : BiquadState
deriving Repr, DecidableEq

/-- `Notch` (source lines 69-87), translated literally: two inline
second-order sections with hard-coded constants, threaded in order. -/
def Notch (st : NotchState) (input : ℚ) : ℚ × NotchState :=
  let x1 := input - (-1.56858163) * st.s1.z1 - 0.96424138 * st.s1.z2
  let out1 := 0.96508099 * x1 + (-1.56202714) * st.s1.z1 + 0.96508099 * st.s1.z2
  let x2 := out1 - (-1.61100358) * st.s2.z1 - 0.96592171 * st.s2.z2
  let out2 := 1.00000000 * x2 + (-1.61854514) * st.s2.z1 + 1.00000000 * st.s2.z2
  (out2, ⟨⟨x1, st.s1.z1⟩, ⟨x2, st.s2.z1⟩⟩)

/-- `EEGFilter` (source lines 93-104), translated literally: one inline
second-order section. -/
def EEGFilter (st : BiquadState) (input : ℚ) : ℚ × BiquadState :=
  let x := input - (-1.22465158) * st.z1 - 0.45044543 * st.z2
  (0.05644846 * x + 0.11289692 * st.z1 + 0.05644846 * st.z2, ⟨x, st.z1⟩)

/-- State of `ECGFilter`: the static `z1, z2` pairs of its four sections. -/
structure ECGState where
  s1 : BiquadState
  s2 : BiquadState
  s3 : BiquadState
  s4 : BiquadState
deriving Repr, DecidableEq

/-- `ECGFilter` (source lines 381-413), translated literally: four inline
second-order sections with hard-coded constants, threaded in order. -/
def ECGFilter (st : ECGState) (input : ℚ) : ℚ × ECGState :=
  let x1 := input - 0.70682283 * st.s1.z1 - 0.15621030 * st.s1.z2
  let out1 := 0.28064917 * x1 + 0.56129834 * st.s1.z1 + 0.28064917 * st.s1.z2
  let x2 := out1 - 0.95028224 * st.s2.z1 - 0.54073140 * st.s2.z2
  let out2 := 1.00000000 * x2 + 2.00000000 * st.s2.z1 + 1.00000000 * st.s2.z2
  let x3 := out2 - (-1.95360385) * st.s3.z1 - 0.95423412 * st.s3.z2
  let out3 := 1.00000000 * x3 + (-2.00000000) * st.s3.z1 + 1.00000000 * st.s3.z2
  let x4 := out3 - (-1.98048558) * st.s4.z1 - 0.98111344 * st.s4.z2
  let out4 := 1.00000000 * x4 + (-2.00000000) * st.s4.z1 + 1.00000000 * st.s4.z2
  (out4, ⟨⟨x1, st.s1.z1⟩, ⟨x2, st.s2.z1⟩, ⟨x3, st.s3.z1⟩, ⟨x4, st.s4.z1⟩⟩)

/-- Helper: `Notch` is the cascade of `biquadStep` at `notchSec1` and
`notchSec2`. -/
lemma Notch_eq_cascade (st : NotchState) (u : ℚ) :
    Notch st u =
      (let r1 := biquadStep notchSec1 st.s1 u
       let r2 := biquadStep notchSec2 st.s2 r1.1
       (r2.1, ⟨r1.2, r2.2⟩)) := rfl

/-- Helper: `EEGFilter` is `biquadStep` at `eegSec`. -/
lemma EEGFilter_eq_cascade (st : BiquadState) (u : ℚ) :
    EEGFilter st u = biquadStep eegSec st u := rfl

/-- Helper: `ECGFilter` is the cascade of `biquadStep` at `ecgSec1` …
`ecgSec4`. -/
lemma ECGFilter_eq_cascade (st : ECGState) (u : ℚ) :
    ECGFilter st u =
      (let r1 := biquadStep ecgSec1 st.s1 u
       let r2 := biquadStep ecgSec2 st.s2 r1.1
       let r3 := biquadStep ecgSec3 st.s3 r2.1
       let r4 := biquadStep ecgSec4 st.s4 r3.1
       (r4.1, ⟨r1.2, r2.2, r3.2, r4.2⟩)) := rfl

/-! ## Band power, smoothing and the reported metric -/

/-- `BandpowerResults` (source lines 41-49). -/
structure BandpowerResults where
  delta : ℚ
  theta : ℚ
  alpha : ℚ
  beta : ℚ
  gamma : ℚ
  total : ℚ
deriving Repr, DecidableEq

/-- `SmoothedBandpower` (source lines 52-60). -/
structure SmoothedBandpower where
  delta : ℚ
  theta : ℚ
  alpha : ℚ
  beta : ℚ
  gamma : ℚ
  total : ℚ
deriving Repr, DecidableEq

/-- `EPS` (source line 31). -/
def EPS : ℚ := 1e-6

/-- `SMOOTHING_FACTOR` (source line 30). -/
def SMOOTHING_FACTOR : ℚ := 0.63

/-- Loop body of `calculateBandpower` for one bin index `i` (source lines
130-156): add the bin's power to `total`, then to the single band whose
half-open frequency range contains `i * binResol`, chosen by the
`if`/`else if` chain. -/
def bandpowerAccum (powerSpec : ℕ → ℚ) (binResol : ℚ)
    (r : BandpowerResults) (i : ℕ) : BandpowerResults :=
  let freq := (i : ℚ) * binResol
  let power := powerSpec i
  let r := { r with total := r.total + power }
  if 0.5 ≤ freq ∧ freq < 4.0 then { r with delta := r.delta + power }
  else if 4.0 ≤ freq ∧ freq < 8.0 then { r with theta := r.theta + power }
  else if 8.0 ≤ freq ∧ freq < 13.0 then { r with alpha := r.alpha + power }
  else if 13.0 ≤ freq ∧ freq < 30.0 then { r with beta := r.beta + power }
  else if 30.0 ≤ freq ∧ freq < 45.0 then { r with gamma := r.gamma + power }
  else r

/-- `calculateBandpower` (source lines 126-159): fold the loop body over the
bin indices `1, …, halfSize - 1`, starting from the all-zero result. -/
def calculateBandpower (powerSpec : ℕ → ℚ) (binResol : ℚ)
    (halfSize : ℕ) : BandpowerResults :=
  (List.range' 1 (halfSize - 1)).foldl (bandpowerAccum powerSpec binResol)
    ⟨0, 0, 0, 0, 0, 0⟩

/-- `smoothBandpower` (source lines 115-123): exponential moving average,
componentwise, with factor `SMOOTHING_FACTOR`. -/
def smoothBandpower (raw : BandpowerResults) (s : SmoothedBandpower) :
    SmoothedBandpower where
  delta := SMOOTHING_FACTOR * raw.delta + (1 - SMOOTHING_FACTOR) * s.delta
  theta := SMOOTHING_FACTOR * raw.theta + (1 - SMOOTHING_FACTOR) * s.theta
  alpha := SMOOTHING_FACTOR * raw.alpha + (1 - SMOOTHING_FACTOR) * s.alpha
  beta := SMOOTHING_FACTOR * raw.beta + (1 - SMOOTHING_FACTOR) * s.beta
  gamma := SMOOTHING_FACTOR * raw.gamma + (1 - SMOOTHING_FACTOR) * s.gamma
  total := SMOOTHING_FACTOR * raw.total + (1 - SMOOTHING_FACTOR) * s.total

/-- `n` consecutive blocks of the same raw band-power vector fed through
`smoothBandpower`, starting from `s`. -/
def smoothIter (raw : BandpowerResults) (s : SmoothedBandpower) : ℕ → SmoothedBandpower
  | 0 => s
  | n + 1 => smoothBandpower raw (smoothIter raw s n)

/-- The externally reported scalar printed by `processFFT` (source line 254):
`((beta / (total + EPS)) * 100) / (alpha / (total + EPS)) * 100`, with C
precedence, i.e. the whole quotient is multiplied by the trailing 100. -/
def betaAlphaMetric (s : SmoothedBandpower) : ℚ :=
  ((s.beta / (s.total + EPS)) * 100) / (s.alpha / (s.total + EPS)) * 100

/-- The divisions performed on source line 254 are: twice by
`total + EPS`, and once by `alpha / (total + EPS)`.  The line is guarded
against division by zero iff both divisors are nonzero. -/
def ratioGuarded (s : SmoothedBandpower) : Prop :=
  s.total + EPS ≠ 0 ∧ s.alpha / (s.total + EPS) ≠ 0

instance (s : SmoothedBandpower) : Decidable (ratioGuarded s) := by
  unfold ratioGuarded; infer_instance

/-! ## RR-interval plausibility filter

Source lines 300-318: on a detected peak, if a previous peak exists, the
elapsed time is converted to milliseconds and reported only when it lies in
[400, 2000]; the last-peak timestamp is updated unconditionally.  Time is
modelled in microseconds as a natural number. -/

structure RRState where
  lastPeakTime : ℕ
  firstPeak : Bool
deriving Repr, DecidableEq

/-- One pass of the RR-interval logic in `loop` for one sample tick: given
the peak flag of this tick and the current time `now` (microseconds),
return the reported interval (milliseconds), if any, and the new state. -/
def rrStep (st : RRState) (peak : Bool) (now : ℕ) : Option ℚ × RRState :=
  if peak then
    let report : Option ℚ :=
      if st.firstPeak then none
      else
        let rrIntervalMs : ℚ := ((now - st.lastPeakTime : ℕ) : ℚ) / 1000
        if 400 ≤ rrIntervalMs ∧ rrIntervalMs ≤ 2000 then some rrIntervalMs
        else none
    (report, ⟨now, false⟩)
  else (none, st)

/-! ## Adaptive peak detector

`Getpeak` (source lines 341-379) keeps three static length-16 buffers and a
cursor.  Samples are real-valued here because the source stores
`sqrt(standard_deviation / DATA_LENGTH)` into the third buffer. -/

/-- `DATA_LENGTH` (source line 13). -/
def DATA_LENGTH : ℕ := 16

structure PeakState where
  data : Fin 16 → ℝ
  meanBuf : Fin 16 → ℝ
  stdBuf : Fin 16 → ℝ
  idx : Fin 16

/-- The zero-initialized static buffers and cursor of the source. -/
noncomputable def initPeakState : PeakState :=
  ⟨fun _ => 0, fun _ => 0, fun _ => 0, 0⟩

/-- The writes `Getpeak` performs after classifying the sample `new_sample`
as peak (`p = true`) or not, translated in source order (lines 349-375):
store the sample (added to the old slot value on a peak), recompute the mean
as `sum / DATA_LENGTH` with `sum` ranging over `data_buffer[(idx + i) % 16]`,
recompute `sqrt(Σ (data_buffer[i] - mean)² / DATA_LENGTH)`, write both at
the cursor, and advance the cursor mod 16. -/
noncomputable def updatePeak (st : PeakState) (new_sample : ℝ) (p : Bool) : PeakState :=
  let c := st.idx
  let data' := Function.update st.data c (if p then new_sample + st.data c else new_sample)
  let sum := ∑ i : Fin 16, data' (c + i)
  let mean := sum / 16
  let standard_deviation := ∑ i : Fin 16, (data' i - mean) ^ 2
  { data := data'
    meanBuf := Function.update st.meanBuf c mean
    stdBuf := Function.update st.stdBuf c (Real.sqrt (standard_deviation / 16))
    idx := c + 1 }

/-- `Getpeak` (source lines 341-379): flag a peak iff
`new_sample - mean_buffer[idx] > (DATA_LENGTH/2) * standard_deviation_buffer[idx]`
(integer division, so the multiplier is 8), then perform the buffer updates. -/
noncomputable def Getpeak (st : PeakState) (new_sample : ℝ) : Bool × PeakState :=
  let p : Bool :=
    if new_sample - st.meanBuf st.idx > ((DATA_LENGTH / 2 : ℕ) : ℝ) * st.stdBuf st.idx
    then true else false
  (p, updatePeak st new_sample p)

/-- The peak-detector step as the claim describes it, written from the
claim's words: read the stored mean and standard deviation at the cursor,
flag a peak iff `(new_sample - mean) > 8 * std` strictly, store
`new_sample + old` on a peak and `new_sample` otherwise, recompute the mean
and the population standard deviation over all 16 data slots, write them at
the cursor, advance the cursor mod 16, return the flag. -/
noncomputable def GetpeakClaim (st : PeakState) (new_sample : ℝ) : Bool × PeakState :=
  let c := st.idx
  let p : Bool := if new_sample - st.meanBuf c > 8 * st.stdBuf c then true else false
  let data' := Function.update st.data c (if p then new_sample + st.data c else new_sample)
  let mean := (∑ i : Fin 16, data' i) / 16
  let popStd := Real.sqrt ((∑ i : Fin 16, (data' i - mean) ^ 2) / 16)
  (p, { data := data'
        meanBuf := Function.update st.meanBuf c mean
        stdBuf := Function.update st.stdBuf c popStd
        idx := c + 1 })

/-- `Getpeak` as a step relation: one constructor per branch of the source's
classification, both ending in the same buffer update. -/
inductive GetpeakR : PeakState → ℝ → Bool → PeakState → Prop
  | found (st : PeakState) (x : ℝ)
      (h : x - st.meanBuf st.idx > ((DATA_LENGTH / 2 : ℕ) : ℝ) * st.stdBuf st.idx) :
      GetpeakR st x true (updatePeak st x true)
  | missed (st : PeakState) (x : ℝ)
      (h : ¬ x - st.meanBuf st.idx > ((DATA_LENGTH / 2 : ℕ) : ℝ) * st.stdBuf st.idx) :
      GetpeakR st x false (updatePeak st x false)

/-- Executing `Getpeak` over a list of samples, collecting the peak flags. -/
inductive GetpeakRunR : PeakState → List ℝ → List Bool → PeakState → Prop
  | nil (st : PeakState) : GetpeakRunR st [] [] st
  | cons {st st' st'' : PeakState} {x : ℝ} {b : Bool} {xs : List ℝ} {bs : List Bool} :
      GetpeakR st x b st' → GetpeakRunR st' xs bs st'' →
      GetpeakRunR st (x :: xs) (b :: bs) st''

/-- The step relation agrees with the translated step function. -/
lemma getpeakR_iff (st : PeakState) (x : ℝ) (b : Bool) (st' : PeakState) :
    GetpeakR st x b st' ↔ Getpeak st x = (b, st') := by
  constructor
  · intro h
    cases h with
    | found h => simp [Getpeak, h]
    | missed h => simp [Getpeak, h]
  · intro h
    by_cases hc : x - st.meanBuf st.idx > ((DATA_LENGTH / 2 : ℕ) : ℝ) * st.stdBuf st.idx
    · simp only [Getpeak, if_pos hc, Prod.mk.injEq] at h
      rw [← h.1, ← h.2]
      exact GetpeakR.found st x hc
    · simp only [Getpeak, if_neg hc, Prod.mk.injEq] at h
      rw [← h.1, ← h.2]
      exact GetpeakR.missed st x hc

/-- One step of the relation is deterministic. -/
lemma getpeakR_det {st : PeakState} {x : ℝ} {b1 b2 : Bool} {s1 s2 : PeakState}
    (h1 : GetpeakR st x b1 s1) (h2 : GetpeakR st x b2 s2) : b1 = b2 ∧ s1 = s2 := by
  cases h1 with
  | found h =>
      cases h2 with
      | found h' => exact ⟨rfl, rfl⟩
      | missed h' => exact absurd h h'
  | missed h =>
      cases h2 with
      | found h' => exact absurd h' h
      | missed h' => exact ⟨rfl, rfl⟩

/-- A whole run of the relation is deterministic. -/
lemma getpeakRunR_det {st : PeakState} {xs : List ℝ} {bs1 bs2 : List Bool}
    {s1 s2 : PeakState} (h1 : GetpeakRunR st xs bs1 s1) (h2 : GetpeakRunR st xs bs2 s2) :
    bs1 = bs2 ∧ s1 = s2 := by
  induction h1 generalizing bs2 s2 with
  | nil st => cases h2; exact ⟨rfl, rfl⟩
  | cons hstep _ ih =>
      cases h2 with
      | cons hstep' hrest' =>
          obtain ⟨hb, hs⟩ := getpeakR_det hstep hstep'
          subst hb; subst hs
          obtain ⟨hbs, hst⟩ := ih hrest'
          exact ⟨by rw [hbs], hst⟩

/-- The detector states after feeding the first `n` samples of `u`,
starting from the zero-initialized buffers. -/
noncomputable def peakStates (u : ℕ → ℝ) : ℕ → PeakState
  | 0 => initPeakState
  | n + 1 => (Getpeak (peakStates u n) (u n)).2

/-- The peak flag returned for sample `n` of `u`. -/
noncomputable def peakFlag (u : ℕ → ℝ) (n : ℕ) : Bool :=
  (Getpeak (peakStates u n) (u n)).1

/-! ## Claim theorems -/

/-- Claim C6: for every starting smoothed vector `s0` and every constant raw
band-power vector `raw` fed for `n` consecutive blocks, each smoothed
component after block `n` satisfies
`smoothed_n - raw = (1 - α)^n * (s0 - raw)` with `α = SMOOTHING_FACTOR =
0.63`, for all five bands and for the total: geometric convergence to the
raw value with per-block ratio `1 - α` (exact in the rational model). -/
theorem claim_C6 (raw : BandpowerResults) (s0 : SmoothedBandpower) (n : ℕ) :
    (smoothIter raw s0 n).delta - raw.delta
        = (1 - SMOOTHING_FACTOR) ^ n * (s0.delta - raw.delta) ∧
    (smoothIter raw s0 n).theta - raw.theta
        = (1 - SMOOTHING_FACTOR) ^ n * (s0.theta - raw.theta) ∧
    (smoothIter raw s0 n).alpha - raw.alpha
        = (1 - SMOOTHING_FACTOR) ^ n * (s0.alpha - raw.alpha) ∧
    (smoothIter raw s0 n).beta - raw.beta
        = (1 - SMOOTHING_FACTOR) ^ n * (s0.beta - raw.beta) ∧
    (smoothIter raw s0 n).gamma - raw.gamma
        = (1 - SMOOTHING_FACTOR) ^ n * (s0.gamma - raw.gamma) ∧
    (smoothIter raw s0 n).total - raw.total
        = (1 - SMOOTHING_FACTOR) ^ n * (s0.total - raw.total) := by
  induction n with
  | zero => simp [smoothIter]
  | succ n ih =>
      obtain ⟨h1, h2, h3, h4, h5, h6⟩ := ih
      refine ⟨?_, ?_, ?_, ?_, ?_, ?_⟩ <;>
        simp only [smoothIter, smoothBandpower]
      · linear_combination (1 - SMOOTHING_FACTOR) * h1
      · linear_combination (1 - SMOOTHING_FACTOR) * h2
      · linear_combination (1 - SMOOTHING_FACTOR) * h3
      · linear_combination (1 - SMOOTHING_FACTOR) * h4
      · linear_combination (1 - SMOOTHING_FACTOR) * h5
      · linear_combination (1 - SMOOTHING_FACTOR) * h6

/-- A smoothed vector with zero alpha power but nonzero beta and total. -/
def c1Bad : SmoothedBandpower := ⟨0, 0, 0, 1, 0, 1⟩

/-- Claim C1 counterexample: with smoothed alpha power exactly zero (and
beta 1, total 1), the outer division of source line 254 has divisor
`alpha / (total + EPS) = 0`, so not every division of the reported ratio is
guarded: the claim fails at this input. -/
theorem claim_C1_counterexample :
    (c1Bad.total = 0 ∨ c1Bad.alpha = 0) ∧ ¬ ratioGuarded c1Bad := by
  refine ⟨Or.inr rfl, ?_⟩
  intro h
  exact h.2 (by norm_num [c1Bad])

/-- Claim C1 amended: only the divisions by the total are guarded by the
additive epsilon: for non-negative smoothed total, `total + EPS ≠ 0`, so a
zero total alone leaves every division well defined (the ratio is guarded
whenever alpha is nonzero); but a smoothed alpha power of exactly zero makes
the outer divisor `alpha / (total + EPS)` exactly zero, i.e. the division by
the alpha fraction is not protected. -/
theorem claim_C1_amended (s : SmoothedBandpower) (h : 0 ≤ s.total) :
    s.total + EPS ≠ 0 ∧
    (s.alpha ≠ 0 → ratioGuarded s) ∧
    (s.alpha = 0 → s.alpha / (s.total + EPS) = 0) := by
  have hpos : 0 < s.total + EPS := by
    have he : (0 : ℚ) < EPS := by norm_num [EPS]
    linarith
  refine ⟨ne_of_gt hpos, ?_, ?_⟩
  · intro ha
    exact ⟨ne_of_gt hpos, div_ne_zero ha (ne_of_gt hpos)⟩
  · intro ha
    rw [ha, zero_div]

/-- A smoothed vector with zero total but nonzero alpha. -/
def c1Wit : SmoothedBandpower := ⟨0, 0, 1, 1, 0, 0⟩

theorem claim_C1_witness :
    (0 : ℚ) ≤ c1Wit.total ∧
      (c1Wit.total + EPS ≠ 0 ∧
       (c1Wit.alpha ≠ 0 → ratioGuarded c1Wit) ∧
       (c1Wit.alpha = 0 → c1Wit.alpha / (c1Wit.total + EPS) = 0)) :=
  ⟨by norm_num [c1Wit], claim_C1_amended c1Wit (by norm_num [c1Wit])⟩

/-- A smoothed vector with alpha = beta = total = 1. -/
def c7Bad : SmoothedBandpower := ⟨0, 0, 1, 1, 0, 1⟩

/-- Claim C7 counterexample: at alpha = beta = total = 1 the reported scalar
of source line 254 evaluates to 10000 while `beta / alpha = 1`: the two
`* 100` factors do not cancel (by C precedence the second one multiplies the
whole quotient), so the reported value is not `smoothed.beta /
smoothed.alpha`. -/
theorem claim_C7_counterexample :
    betaAlphaMetric c7Bad ≠ c7Bad.beta / c7Bad.alpha := by
  norm_num [betaAlphaMetric, c7Bad, EPS]

/-- Claim C7 amended: for non-negative smoothed total and nonzero smoothed
alpha, the reported scalar equals `10000 * (beta / alpha)`: the epsilon-
guarded total cancels between numerator and denominator (so the value does
not depend on `smoothed.total`), but the two `* 100` factors compound into a
constant factor 10000 instead of cancelling. -/
theorem claim_C7_amended (s : SmoothedBandpower) (h : 0 ≤ s.total)
    (ha : s.alpha ≠ 0) :
    betaAlphaMetric s = 10000 * (s.beta / s.alpha) := by
  have hT : s.total + EPS ≠ 0 := by
    have he : (0 : ℚ) < EPS := by norm_num [EPS]
    intro h0
    linarith [h, he]
  unfold betaAlphaMetric
  field_simp
  ring

/-- A smoothed vector with beta 6, alpha 2, total 4. -/
def c7Wit : SmoothedBandpower := ⟨0, 0, 2, 6, 0, 4⟩

theorem claim_C7_witness :
    (0 : ℚ) ≤ c7Wit.total ∧ c7Wit.alpha ≠ 0 ∧
      betaAlphaMetric c7Wit = 10000 * (c7Wit.beta / c7Wit.alpha) :=
  ⟨by norm_num [c7Wit], by norm_num [c7Wit],
    claim_C7_amended c7Wit (by norm_num [c7Wit]) (by norm_num [c7Wit])⟩

/-- Claim C2 counterexample: for the `EEGFilter` section at state
`z1 = 1, z2 = 0` and input 0, the source's output `b0*x + b1*z1 + b2*z2`
differs from the claimed `b0*x + z1`: the claim's output formula is wrong
for sections whose `b1 ≠ 1`. -/
theorem claim_C2_counterexample :
    (biquadStep eegSec ⟨1, 0⟩ 0).1 ≠ (biquadStepSpec eegSec ⟨1, 0⟩ 0).1 := by
  norm_num [biquadStep, biquadStepSpec, eegSec]

/-- Claim C2 amended: each biquad section, given one input sample,
coefficients `(a1, a2, b0, b1, b2)` and state `(z1, z2)`, computes
`x = input - a1*z1 - a2*z2`, returns `output = b0*x + b1*z1 + b2*z2` (not
`b0*x + z1`), and then updates `z2 ← z1` and `z1 ← x`; every section of
`Notch`, `EEGFilter` and `ECGFilter` is an instance of this step with its
hard-coded coefficients, threaded in cascade. -/
theorem claim_C2_amended :
    (∀ (c : BiquadCoeffs) (s : BiquadState) (u : ℚ),
      biquadStep c s u =
        (c.b0 * (u - c.a1 * s.z1 - c.a2 * s.z2) + c.b1 * s.z1 + c.b2 * s.z2,
         ⟨u - c.a1 * s.z1 - c.a2 * s.z2, s.z1⟩)) ∧
    (∀ (st : NotchState) (u : ℚ),
      Notch st u =
        (let r1 := biquadStep notchSec1 st.s1 u
         let r2 := biquadStep notchSec2 st.s2 r1.1
         (r2.1, ⟨r1.2, r2.2⟩))) ∧
    (∀ (st : BiquadState) (u : ℚ), EEGFilter st u = biquadStep eegSec st u) ∧
    (∀ (st : ECGState) (u : ℚ),
      ECGFilter st u =
        (let r1 := biquadStep ecgSec1 st.s1 u
         let r2 := biquadStep ecgSec2 st.s2 r1.1
         let r3 := biquadStep ecgSec3 st.s3 r2.1
         let r4 := biquadStep ecgSec4 st.s4 r3.1
         (r4.1, ⟨r1.2, r2.2, r3.2, r4.2⟩))) :=
  ⟨fun _ _ _ => rfl, Notch_eq_cascade, EEGFilter_eq_cascade, ECGFilter_eq_cascade⟩

/-- Claim C4: on every detected peak, the new state records `now` as the
last peak time and clears the first-peak flag whether or not an interval was
accepted; the very first detected peak reports no interval; and when a
previous peak exists, the interval `(now - lastPeakTime) / 1000` milliseconds
is reported iff `400 ≤ interval ≤ 2000` with both boundaries inclusive,
otherwise nothing is reported. -/
theorem claim_C4 (st : RRState) (now : ℕ) :
    (rrStep st true now).2 = ⟨now, false⟩ ∧
    (st.firstPeak = true → (rrStep st true now).1 = none) ∧
    (st.firstPeak = false →
      (((rrStep st true now).1 = some (((now - st.lastPeakTime : ℕ) : ℚ) / 1000) ↔
          400 ≤ ((now - st.lastPeakTime : ℕ) : ℚ) / 1000 ∧
            ((now - st.lastPeakTime : ℕ) : ℚ) / 1000 ≤ 2000) ∧
       (¬ (400 ≤ ((now - st.lastPeakTime : ℕ) : ℚ) / 1000 ∧
            ((now - st.lastPeakTime : ℕ) : ℚ) / 1000 ≤ 2000) →
          (rrStep st true now).1 = none))) := by
  refine ⟨by simp [rrStep], ?_, ?_⟩
  · intro h
    simp [rrStep, h]
  · intro h
    constructor
    · constructor
      · intro hsome
        by_contra hrange
        simp [rrStep, h, hrange] at hsome
      · intro hrange
        simp [rrStep, h, hrange]
    · intro hrange
      simp [rrStep, h, hrange]

theorem claim_C4_witness :
    (rrStep ⟨0, false⟩ true 400000).1 = some 400 ∧
    (rrStep ⟨0, false⟩ true 2000000).1 = some 2000 ∧
    (rrStep ⟨0, false⟩ true 100000).1 = none ∧
    (rrStep ⟨0, false⟩ true 3000000).1 = none ∧
    (rrStep ⟨0, true⟩ true 500000).1 = none ∧
    (rrStep ⟨0, false⟩ true 100000).2 = ⟨100000, false⟩ := by
  have h400 := ((claim_C4 ⟨0, false⟩ 400000).2.2 rfl).1
  have h2000 := ((claim_C4 ⟨0, false⟩ 2000000).2.2 rfl).1
  have h100 := ((claim_C4 ⟨0, false⟩ 100000).2.2 rfl).2
  have h3000 := ((claim_C4 ⟨0, false⟩ 3000000).2.2 rfl).2
  refine ⟨?_, ?_, ?_, ?_, (claim_C4 ⟨0, true⟩ 500000).2.1 rfl,
    (claim_C4 ⟨0, false⟩ 100000).1⟩
  · have he : ((400000 - (0 : ℕ) : ℕ) : ℚ) / 1000 = 400 := by norm_num
    rw [he] at h400
    exact h400.mpr (by norm_num)
  · have he : ((2000000 - (0 : ℕ) : ℕ) : ℚ) / 1000 = 2000 := by norm_num
    rw [he] at h2000
    exact h2000.mpr (by norm_num)
  · exact h100 (by norm_num)
  · exact h3000 (by norm_num)

/-! ## Band-power characterization (claim C5) -/

section Bandpower

variable (ps : ℕ → ℚ) (br : ℚ)

lemma bandpowerAccum_total (r : BandpowerResults) (i : ℕ) :
    (bandpowerAccum ps br r i).total = r.total + ps i := by
  unfold bandpowerAccum
  simp only []
  split_ifs <;> simp

lemma bandpowerAccum_delta (r : BandpowerResults) (i : ℕ) :
    (bandpowerAccum ps br r i).delta =
      r.delta + (if 0.5 ≤ (i : ℚ) * br ∧ (i : ℚ) * br < 4.0 then ps i else 0) := by
  unfold bandpowerAccum
  simp only []
  split_ifs <;> simp_all <;> linarith

lemma bandpowerAccum_theta (r : BandpowerResults) (i : ℕ) :
    (bandpowerAccum ps br r i).theta =
      r.theta + (if 4.0 ≤ (i : ℚ) * br ∧ (i : ℚ) * br < 8.0 then ps i else 0) := by
  unfold bandpowerAccum
  simp only []
  split_ifs <;> simp_all <;> linarith

lemma bandpowerAccum_alpha (r : BandpowerResults) (i : ℕ) :
    (bandpowerAccum ps br r i).alpha =
      r.alpha + (if 8.0 ≤ (i : ℚ) * br ∧ (i : ℚ) * br < 13.0 then ps i else 0) := by
  unfold bandpowerAccum
  simp only []
  split_ifs <;> simp_all <;> linarith

lemma bandpowerAccum_beta (r : BandpowerResults) (i : ℕ) :
    (bandpowerAccum ps br r i).beta =
      r.beta + (if 13.0 ≤ (i : ℚ) * br ∧ (i : ℚ) * br < 30.0 then ps i else 0) := by
  unfold bandpowerAccum
  simp only []
  split_ifs <;> simp_all <;> linarith

lemma bandpowerAccum_gamma (r : BandpowerResults) (i : ℕ) :
    (bandpowerAccum ps br r i).gamma =
      r.gamma + (if 30.0 ≤ (i : ℚ) * br ∧ (i : ℚ) * br < 45.0 then ps i else 0) := by
  unfold bandpowerAccum
  simp only []
  split_ifs <;> simp_all <;> linarith

/-- The fold of `calculateBandpower` over the first `m` bin indices
`1, …, m`. -/
def bandLoop : ℕ → BandpowerResults := fun m =>
  (List.range' 1 m).foldl (bandpowerAccum ps br) ⟨0, 0, 0, 0, 0, 0⟩

lemma bandLoop_succ (m : ℕ) :
    bandLoop ps br (m + 1) = bandpowerAccum ps br (bandLoop ps br m) (1 + m) := by
  unfold bandLoop
  rw [show List.range' 1 (m + 1) = List.range' 1 m ++ [1 + 1 * m] from
    List.range'_concat 1 m, List.foldl_append]
  simp

lemma bandLoop_total (m : ℕ) :
    (bandLoop ps br m).total = ∑ i in Finset.Ico 1 (m + 1), ps i := by
  induction m with
  | zero => simp [bandLoop]
  | succ m ih =>
      conv_rhs => rw [Finset.sum_Ico_succ_top (show 1 ≤ m + 1 by omega)]
      rw [bandLoop_succ, bandpowerAccum_total, ih, Nat.add_comm 1 m]

lemma bandLoop_delta (m : ℕ) :
    (bandLoop ps br m).delta =
      ∑ i in Finset.Ico 1 (m + 1),
        (if 0.5 ≤ (i : ℚ) * br ∧ (i : ℚ) * br < 4.0 then ps i else 0) := by
  induction m with
  | zero => simp [bandLoop]
  | succ m ih =>
      conv_rhs => rw [Finset.sum_Ico_succ_top (show 1 ≤ m + 1 by omega)]
      rw [bandLoop_succ, bandpowerAccum_delta, ih, Nat.add_comm 1 m]

lemma bandLoop_theta (m : ℕ) :
    (bandLoop ps br m).theta =
      ∑ i in Finset.Ico 1 (m + 1),
        (if 4.0 ≤ (i : ℚ) * br ∧ (i : ℚ) * br < 8.0 then ps i else 0) := by
  induction m with
  | zero => simp [bandLoop]
  | succ m ih =>
      conv_rhs => rw [Finset.sum_Ico_succ_top (show 1 ≤ m + 1 by omega)]
      rw [bandLoop_succ, bandpowerAccum_theta, ih, Nat.add_comm 1 m]

lemma bandLoop_alpha (m : ℕ) :
    (bandLoop ps br m).alpha =
      ∑ i in Finset.Ico 1 (m + 1),
        (if 8.0 ≤ (i : ℚ) * br ∧ (i : ℚ) * br < 13.0 then ps i else 0) := by
  induction m with
  | zero => simp [bandLoop]
  | succ m ih =>
      conv_rhs => rw [Finset.sum_Ico_succ_top (show 1 ≤ m + 1 by omega)]
      rw [bandLoop_succ, bandpowerAccum_alpha, ih, Nat.add_comm 1 m]

lemma bandLoop_beta (m : ℕ) :
    (bandLoop ps br m).beta =
      ∑ i in Finset.Ico 1 (m + 1),
        (if 13.0 ≤ (i : ℚ) * br ∧ (i : ℚ) * br < 30.0 then ps i else 0) := by
  induction m with
  | zero => simp [bandLoop]
  | succ m ih =>
      conv_rhs => rw [Finset.sum_Ico_succ_top (show 1 ≤ m + 1 by omega)]
      rw [bandLoop_succ, bandpowerAccum_beta, ih, Nat.add_comm 1 m]

lemma bandLoop_gamma (m : ℕ) :
    (bandLoop ps br m).gamma =
      ∑ i in Finset.Ico 1 (m + 1),
        (if 30.0 ≤ (i : ℚ) * br ∧ (i : ℚ) * br < 45.0 then ps i else 0) := by
  induction m with
  | zero => simp [bandLoop]
  | succ m ih =>
      conv_rhs => rw [Finset.sum_Ico_succ_top (show 1 ≤ m + 1 by omega)]
      rw [bandLoop_succ, bandpowerAccum_gamma, ih, Nat.add_comm 1 m]

lemma calculateBandpower_eq_bandLoop (halfSize : ℕ) :
    calculateBandpower ps br halfSize = bandLoop ps br (halfSize - 1) := rfl

end Bandpower

/-- Claim C5: `calculateBandpower` accumulates the power of every bin `i` in
`[1, halfSize)` into `total`; each band holds exactly the powers of the bins
whose frequency `i * binResolution` falls in its half-open range — delta
`[0.5, 4)`, theta `[4, 8)`, alpha `[8, 13)`, beta `[13, 30)`, gamma
`[30, 45)` — so each bin lands in at most one band (the ranges are disjoint)
and bin 0 and out-of-range bins contribute only to `total`; consequently,
for non-negative bin powers, the five band sums together never exceed
`total`. -/
theorem claim_C5 (ps : ℕ → ℚ) (br : ℚ) (halfSize : ℕ) :
    (calculateBandpower ps br halfSize).total = ∑ i in Finset.Ico 1 halfSize, ps i ∧
    (calculateBandpower ps br halfSize).delta =
      ∑ i in Finset.Ico 1 halfSize,
        (if 0.5 ≤ (i : ℚ) * br ∧ (i : ℚ) * br < 4.0 then ps i else 0) ∧
    (calculateBandpower ps br halfSize).theta =
      ∑ i in Finset.Ico 1 halfSize,
        (if 4.0 ≤ (i : ℚ) * br ∧ (i : ℚ) * br < 8.0 then ps i else 0) ∧
    (calculateBandpower ps br halfSize).alpha =
      ∑ i in Finset.Ico 1 halfSize,
        (if 8.0 ≤ (i : ℚ) * br ∧ (i : ℚ) * br < 13.0 then ps i else 0) ∧
    (calculateBandpower ps br halfSize).beta =
      ∑ i in Finset.Ico 1 halfSize,
        (if 13.0 ≤ (i : ℚ) * br ∧ (i : ℚ) * br < 30.0 then ps i else 0) ∧
    (calculateBandpower ps br halfSize).gamma =
      ∑ i in Finset.Ico 1 halfSize,
        (if 30.0 ≤ (i : ℚ) * br ∧ (i : ℚ) * br < 45.0 then ps i else 0) ∧
    ((∀ i, 0 ≤ ps i) →
      (calculateBandpower ps br halfSize).delta + (calculateBandpower ps br halfSize).theta +
        (calculateBandpower ps br halfSize).alpha + (calculateBandpower ps br halfSize).beta +
        (calculateBandpower ps br halfSize).gamma ≤ (calculateBandpower ps br halfSize).total) := by
  have key : ∀ n : ℕ, (∀ i, 0 ≤ ps i) →
      (∑ i in Finset.Ico 1 n,
        (if 0.5 ≤ (i : ℚ) * br ∧ (i : ℚ) * br < 4.0 then ps i else 0)) +
      (∑ i in Finset.Ico 1 n,
        (if 4.0 ≤ (i : ℚ) * br ∧ (i : ℚ) * br < 8.0 then ps i else 0)) +
      (∑ i in Finset.Ico 1 n,
        (if 8.0 ≤ (i : ℚ) * br ∧ (i : ℚ) * br < 13.0 then ps i else 0)) +
      (∑ i in Finset.Ico 1 n,
        (if 13.0 ≤ (i : ℚ) * br ∧ (i : ℚ) * br < 30.0 then ps i else 0)) +
      (∑ i in Finset.Ico 1 n,
        (if 30.0 ≤ (i : ℚ) * br ∧ (i : ℚ) * br < 45.0 then ps i else 0)) ≤
      ∑ i in Finset.Ico 1 n, ps i := by
    intro n hp
    rw [← Finset.sum_add_distrib, ← Finset.sum_add_distrib, ← Finset.sum_add_distrib,
      ← Finset.sum_add_distrib]
    apply Finset.sum_le_sum
    intro i _
    split_ifs <;> simp_all <;> linarith [hp i]
  match halfSize with
  | 0 =>
      refine ⟨by simp [calculateBandpower, bandLoop], by simp [calculateBandpower, bandLoop],
        by simp [calculateBandpower, bandLoop], by simp [calculateBandpower, bandLoop],
        by simp [calculateBandpower, bandLoop], by simp [calculateBandpower, bandLoop], ?_⟩
      intro _
      simp [calculateBandpower, bandLoop]
  | (k + 1) =>
      have h1 := bandLoop_total ps br k
      have h2 := bandLoop_delta ps br k
      have h3 := bandLoop_theta ps br k
      have h4 := bandLoop_alpha ps br k
      have h5 := bandLoop_beta ps br k
      have h6 := bandLoop_gamma ps br k
      rw [calculateBandpower_eq_bandLoop]
      simp only [Nat.add_sub_cancel]
      refine ⟨h1, h2, h3, h4, h5, h6, ?_⟩
      intro hp
      rw [h1, h2, h3, h4, h5, h6]
      exact key (k + 1) hp

theorem claim_C5_witness :
    (calculateBandpower (fun _ => 1) 2 5).delta + (calculateBandpower (fun _ => 1) 2 5).theta +
      (calculateBandpower (fun _ => 1) 2 5).alpha + (calculateBandpower (fun _ => 1) 2 5).beta +
      (calculateBandpower (fun _ => 1) 2 5).gamma ≤ (calculateBandpower (fun _ => 1) 2 5).total :=
  (claim_C5 (fun _ => 1) 2 5).2.2.2.2.2.2 (fun _ => by norm_num)

/-! ## Peak-detector claims (C3, C9, C10) -/

/-- Helper: summing a length-16 buffer starting at any cursor offset visits
every slot exactly once. -/
lemma sum_shift (f : Fin 16 → ℝ) (c : Fin 16) :
    ∑ i : Fin 16, f (c + i) = ∑ i : Fin 16, f i :=
  Equiv.sum_comp (Equiv.addLeft c) f

/-- Claim C3: every call to `Getpeak` reads the stored mean and standard
deviation at the cursor slot, flags a peak iff
`new_sample - mean > 8 * std` strictly (8 = `DATA_LENGTH / 2`), stores
`new_sample + old` into the slot on a peak and `new_sample` alone otherwise,
recomputes the mean and the population standard deviation over all 16 data
slots and writes them at the cursor, advances the cursor mod 16, and returns
the flag — i.e. the source step coincides with the claim's description
(`GetpeakClaim`). -/
theorem claim_C3 (st : PeakState) (x : ℝ) : Getpeak st x = GetpeakClaim st x := by
  have h8 : ((DATA_LENGTH / 2 : ℕ) : ℝ) = 8 := by norm_num [DATA_LENGTH]
  unfold Getpeak GetpeakClaim updatePeak
  simp only [h8, sum_shift]

/-- Claim C9: the peak detector is deterministic: two runs of the step
relation from the zero-initialized state over the same input sequence
produce the same sequence of peak flags (the flags depend on nothing but the
inputs). -/
theorem claim_C9 (xs : List ℝ) (bs1 bs2 : List Bool) (s1 s2 : PeakState)
    (h1 : GetpeakRunR initPeakState xs bs1 s1)
    (h2 : GetpeakRunR initPeakState xs bs2 s2) : bs1 = bs2 :=
  (getpeakRunR_det h1 h2).1

theorem claim_C9_witness : ([true] : List Bool) = [true] := by
  have hstep : GetpeakR initPeakState 3 true (updatePeak initPeakState 3 true) :=
    GetpeakR.found initPeakState 3 (by norm_num [initPeakState, DATA_LENGTH])
  have hrun : GetpeakRunR initPeakState [3] [true] (updatePeak initPeakState 3 true) :=
    GetpeakRunR.cons hstep (GetpeakRunR.nil _)
  exact claim_C9 [3] [true] [true] _ _ hrun hrun

/-- Helper: the cursor after `k` samples is `k mod 16`. -/
lemma peakStates_idx (u : ℕ → ℝ) (k : ℕ) : (peakStates u k).idx = (k : Fin 16) := by
  induction k with
  | zero => simp [peakStates, initPeakState]
  | succ k ih =>
      show (Getpeak (peakStates u k) (u k)).2.idx = _
      simp only [Getpeak, updatePeak]
      rw [ih]
      exact (Nat.cast_add_one k).symm

/-- Helper: after `k` samples, every slot the cursor has not visited yet
still holds its zero-initialized mean and standard deviation. -/
lemma peakStates_untouched (u : ℕ → ℝ) (k : ℕ) (j : Fin 16) (hj : k ≤ j.val) :
    (peakStates u k).meanBuf j = 0 ∧ (peakStates u k).stdBuf j = 0 := by
  induction k with
  | zero => exact ⟨rfl, rfl⟩
  | succ k ih =>
      obtain ⟨h1, h2⟩ := ih (Nat.le_of_succ_le hj)
      have hne : j ≠ (peakStates u k).idx := by
        rw [peakStates_idx]
        intro he
        have hv : j.val = k % 16 := by rw [he]; exact Fin.val_natCast k 16
        have hm := Nat.mod_le k 16
        omega
      show (Getpeak (peakStates u k) (u k)).2.meanBuf j = 0 ∧
        (Getpeak (peakStates u k) (u k)).2.stdBuf j = 0
      simp only [Getpeak, updatePeak]
      rw [Function.update_noteq hne, Function.update_noteq hne]
      exact ⟨h1, h2⟩

/-- Claim C10: starting from the zero-initialized buffers, each of the first
16 calls to the peak detector returns `true` iff its input sample is
strictly positive: the stale mean and standard deviation read at the cursor
are both still 0, so the threshold test degenerates to `new_sample > 0`. -/
theorem claim_C10 (u : ℕ → ℝ) (k : ℕ) (hk : k < 16) :
    peakFlag u k = true ↔ 0 < u k := by
  have hidx := peakStates_idx u k
  have hval : ((k : Fin 16)).val = k := by
    rw [Fin.val_natCast k 16]
    exact Nat.mod_eq_of_lt hk
  obtain ⟨h1, h2⟩ := peakStates_untouched u k (k : Fin 16) (le_of_eq hval.symm)
  unfold peakFlag Getpeak
  rw [hidx, h1, h2]
  by_cases hc : 0 < u k
  · simp only [mul_zero, sub_zero, if_pos hc]
    simp [hc]
  · simp only [mul_zero, sub_zero, if_neg hc]
    simp [hc]

theorem claim_C10_witness :
    (0 : ℕ) < 16 ∧ (peakFlag (fun _ => (3 : ℝ)) 0 = true ↔ (0 : ℝ) < 3) :=
  ⟨by norm_num, claim_C10 (fun _ => (3 : ℝ)) 0 (by norm_num)⟩

/-! ## Filter stability (claim C8)

Every section of the three filters has complex poles inside the unit circle
(`a1² < 4 a2` and `a2 < 1`), so the quadratic form
`(z1 - σ z2)² + ω² z2²` with `σ = -a1/2`, `ω² = a2 - a1²/4` contracts along
the state recursion and bounded inputs give bounded states and outputs. -/

/-- The delay-line state of one section after feeding the first `n` samples
of `u`, starting from the zero-initialized state of the source's statics. -/
def stateSeq (c : BiquadCoeffs) (u : ℕ → ℚ) : ℕ → BiquadState
  | 0 => ⟨0, 0⟩
  | n + 1 => (biquadStep c (stateSeq c u n) (u n)).2

/-- The output of one section for sample `n` of `u`. -/
def outSeq (c : BiquadCoeffs) (u : ℕ → ℚ) (n : ℕ) : ℚ :=
  (biquadStep c (stateSeq c u n) (u n)).1

/-- Lyapunov quadratic form of a section. -/
def lyap (c : BiquadCoeffs) (s : BiquadState) : ℚ :=
  (s.z1 - (-c.a1 / 2) * s.z2) ^ 2 + (c.a2 - c.a1 ^ 2 / 4) * s.z2 ^ 2

lemma lyap_nonneg (c : BiquadCoeffs) (hω : c.a1 ^ 2 < 4 * c.a2) (s : BiquadState) :
    0 ≤ lyap c s := by
  unfold lyap
  nlinarith [sq_nonneg (s.z1 - (-c.a1 / 2) * s.z2), sq_nonneg s.z2]

/-- Exact evolution of the Lyapunov form along one step. -/
lemma lyap_step (c : BiquadCoeffs) (s : BiquadState) (u : ℚ) :
    lyap c (biquadStep c s u).2 =
      c.a2 * lyap c s + 2 * ((-c.a1 / 2) * s.z1 - c.a2 * s.z2) * u + u ^ 2 := by
  simp only [lyap, biquadStep]
  ring

/-- The cross term is dominated by the form itself. -/
lemma cross_sq_le (c : BiquadCoeffs) (hω : c.a1 ^ 2 ≤ 4 * c.a2) (s : BiquadState) :
    ((-c.a1 / 2) * s.z1 - c.a2 * s.z2) ^ 2 ≤ c.a2 * lyap c s := by
  unfold lyap
  have h : (0 : ℚ) ≤ (c.a2 - c.a1 ^ 2 / 4) * s.z1 ^ 2 :=
    mul_nonneg (by linarith) (sq_nonneg s.z1)
  nlinarith [h]

lemma z1_sq_le (c : BiquadCoeffs) (hω : 0 ≤ c.a2 - c.a1 ^ 2 / 4) (s : BiquadState) :
    (c.a2 - c.a1 ^ 2 / 4) * s.z1 ^ 2 ≤ 2 * c.a2 * lyap c s := by
  unfold lyap
  nlinarith [mul_nonneg hω (sq_nonneg (s.z1 - 2 * (-c.a1 / 2) * s.z2)),
    sq_nonneg ((-c.a1 / 2) * (s.z1 - (-c.a1 / 2) * s.z2)),
    sq_nonneg ((c.a2 - c.a1 ^ 2 / 4) * s.z2)]

lemma z2_sq_le (c : BiquadCoeffs) (s : BiquadState) :
    (c.a2 - c.a1 ^ 2 / 4) * s.z2 ^ 2 ≤ lyap c s := by
  unfold lyap
  nlinarith [sq_nonneg (s.z1 - (-c.a1 / 2) * s.z2)]

/-- One-step preservation of the scaled Lyapunov bound under a bounded
input. -/
lemma lyapBound_step (c : BiquadCoeffs) (hω : c.a1 ^ 2 < 4 * c.a2) (ha2 : c.a2 < 1)
    (s : BiquadState) (u M : ℚ) (hu : u ^ 2 ≤ M ^ 2)
    (hV : (1 - c.a2) ^ 2 * lyap c s ≤ 2 * (1 + c.a2) * M ^ 2) :
    (1 - c.a2) ^ 2 * lyap c (biquadStep c s u).2 ≤ 2 * (1 + c.a2) * M ^ 2 := by
  have ha2pos : 0 < c.a2 := by nlinarith [sq_nonneg c.a1]
  have h1a2 : 0 < 1 - c.a2 := by linarith
  have hw := cross_sq_le c (le_of_lt hω) s
  rw [lyap_step]
  set w := (-c.a1 / 2) * s.z1 - c.a2 * s.z2 with hwdef
  set V := lyap c s with hVdef
  have t1 : 0 ≤ (1 - c.a2) * ((1 - c.a2) * w - 2 * c.a2 * u) ^ 2 :=
    mul_nonneg (le_of_lt h1a2) (sq_nonneg _)
  have t2 : (1 - c.a2) ^ 3 * w ^ 2 ≤ (1 - c.a2) ^ 3 * (c.a2 * V) :=
    mul_le_mul_of_nonneg_left hw (by positivity)
  have t3 : c.a2 * (1 + c.a2) * ((1 - c.a2) ^ 2 * V) ≤
      c.a2 * (1 + c.a2) * (2 * (1 + c.a2) * M ^ 2) :=
    mul_le_mul_of_nonneg_left hV
      (mul_nonneg (le_of_lt ha2pos) (by linarith))
  have t4 : 2 * c.a2 * (1 - c.a2) * (1 + c.a2) * u ^ 2 ≤
      2 * c.a2 * (1 - c.a2) * (1 + c.a2) * M ^ 2 :=
    mul_le_mul_of_nonneg_left hu
      (mul_nonneg (mul_nonneg (mul_nonneg (by norm_num) (le_of_lt ha2pos))
        (le_of_lt h1a2)) (by linarith))
  nlinarith [t1, t2, t3, t4, ha2pos]

/-- The scaled Lyapunov bound holds along the whole run from zero state. -/
lemma lyapBound (c : BiquadCoeffs) (hω : c.a1 ^ 2 < 4 * c.a2) (ha2 : c.a2 < 1)
    (u : ℕ → ℚ) (M : ℚ) (hM : ∀ n, |u n| ≤ M) (n : ℕ) :
    (1 - c.a2) ^ 2 * lyap c (stateSeq c u n) ≤ 2 * (1 + c.a2) * M ^ 2 := by
  have ha2pos : 0 < c.a2 := by nlinarith [sq_nonneg c.a1]
  induction n with
  | zero =>
      have h0 : lyap c (stateSeq c u 0) = 0 := by simp [stateSeq, lyap]
      rw [h0, mul_zero]
      have h2 : (0 : ℚ) ≤ 2 * (1 + c.a2) := by linarith
      exact mul_nonneg h2 (sq_nonneg M)
  | succ n ih =>
      have hu : (u n) ^ 2 ≤ M ^ 2 := by
        obtain ⟨h1, h2⟩ := abs_le.mp (hM n)
        exact sq_le_sq' h1 h2
      exact lyapBound_step c hω ha2 (stateSeq c u n) (u n) M hu ih

/-- Squared state components stay bounded in terms of `M²`. -/
lemma state_sq_bound (c : BiquadCoeffs) (hω : c.a1 ^ 2 < 4 * c.a2) (ha2 : c.a2 < 1)
    (u : ℕ → ℚ) (M : ℚ) (hM : ∀ n, |u n| ≤ M) (n : ℕ) :
    (1 - c.a2) ^ 2 * ((c.a2 - c.a1 ^ 2 / 4) * (stateSeq c u n).z1 ^ 2) ≤
      4 * (1 + c.a2) * M ^ 2 ∧
    (1 - c.a2) ^ 2 * ((c.a2 - c.a1 ^ 2 / 4) * (stateSeq c u n).z2 ^ 2) ≤
      4 * (1 + c.a2) * M ^ 2 := by
  have ha2pos : 0 < c.a2 := by nlinarith [sq_nonneg c.a1]
  have hωpos : 0 < c.a2 - c.a1 ^ 2 / 4 := by linarith
  have hVB := lyapBound c hω ha2 u M hM n
  have hVnn := lyap_nonneg c hω (stateSeq c u n)
  have e3 : 0 ≤ 4 * (1 - c.a2) * (1 + c.a2) * M ^ 2 :=
    mul_nonneg (mul_nonneg (mul_nonneg (by norm_num) (by linarith)) (by linarith))
      (sq_nonneg M)
  constructor
  · have hz1 := z1_sq_le c (le_of_lt hωpos) (stateSeq c u n)
    have e1 : (1 - c.a2) ^ 2 * ((c.a2 - c.a1 ^ 2 / 4) * (stateSeq c u n).z1 ^ 2) ≤
        (1 - c.a2) ^ 2 * (2 * c.a2 * lyap c (stateSeq c u n)) :=
      mul_le_mul_of_nonneg_left hz1 (sq_nonneg _)
    have e2 : 2 * c.a2 * ((1 - c.a2) ^ 2 * lyap c (stateSeq c u n)) ≤
        2 * c.a2 * (2 * (1 + c.a2) * M ^ 2) :=
      mul_le_mul_of_nonneg_left hVB (by linarith)
    nlinarith [e1, e2, e3]
  · have hz2 := z2_sq_le c (stateSeq c u n)
    have e1 : (1 - c.a2) ^ 2 * ((c.a2 - c.a1 ^ 2 / 4) * (stateSeq c u n).z2 ^ 2) ≤
        (1 - c.a2) ^ 2 * lyap c (stateSeq c u n) :=
      mul_le_mul_of_nonneg_left hz2 (sq_nonneg _)
    have e4 : 0 ≤ 2 * (1 + c.a2) * M ^ 2 :=
      mul_nonneg (by linarith) (sq_nonneg M)
    nlinarith [e1, hVB, e4]

lemma abs_le_of_sq_le_sq (a b : ℚ) (h : a ^ 2 ≤ b ^ 2) (hb : 0 ≤ b) : |a| ≤ b := by
  nlinarith [sq_abs a, abs_nonneg a]

lemma le_sq_max (d : ℚ) : d ≤ max 1 d ^ 2 := by
  rcases le_total d 1 with h | h
  · have h1 : (1 : ℚ) ≤ max 1 d := le_max_left 1 d
    nlinarith [h1]
  · have h1 : d ≤ max 1 d := le_max_right 1 d
    nlinarith [h1]

/-- Absolute state components stay bounded by a multiple of `M`. -/
lemma stateAbs_bound (c : BiquadCoeffs) (hω : c.a1 ^ 2 < 4 * c.a2) (ha2 : c.a2 < 1)
    (M : ℚ) (hM0 : 0 ≤ M) :
    ∃ γ : ℚ, 0 ≤ γ ∧ ∀ u : ℕ → ℚ, (∀ n, |u n| ≤ M) → ∀ n,
      |(stateSeq c u n).z1| ≤ γ * M ∧ |(stateSeq c u n).z2| ≤ γ * M := by
  have ha2pos : 0 < c.a2 := by nlinarith [sq_nonneg c.a1]
  have hωpos : 0 < c.a2 - c.a1 ^ 2 / 4 := by linarith
  have h1a2 : 0 < 1 - c.a2 := by linarith
  have hKpos : 0 < (1 - c.a2) ^ 2 * (c.a2 - c.a1 ^ 2 / 4) :=
    mul_pos (by positivity) hωpos
  set D := 4 * (1 + c.a2) / ((1 - c.a2) ^ 2 * (c.a2 - c.a1 ^ 2 / 4)) with hD
  have hγ0 : (0 : ℚ) ≤ max 1 D := le_trans zero_le_one (le_max_left _ _)
  refine ⟨max 1 D, hγ0, ?_⟩
  intro u hMu n
  have hsq := state_sq_bound c hω ha2 u M hMu n
  have hγM : 0 ≤ max 1 D * M := mul_nonneg hγ0 hM0
  have key : ∀ z : ℚ,
      (1 - c.a2) ^ 2 * ((c.a2 - c.a1 ^ 2 / 4) * z ^ 2) ≤ 4 * (1 + c.a2) * M ^ 2 →
      |z| ≤ max 1 D * M := by
    intro z hz
    refine abs_le_of_sq_le_sq _ _ ?_ hγM
    have h1 : z ^ 2 ≤ D * M ^ 2 := by
      rw [hD, div_mul_eq_mul_div, le_div_iff hKpos]
      nlinarith [hz]
    calc z ^ 2 ≤ D * M ^ 2 := h1
      _ ≤ max 1 D ^ 2 * M ^ 2 :=
          mul_le_mul_of_nonneg_right (le_sq_max D) (sq_nonneg M)
      _ = (max 1 D * M) ^ 2 := by ring
  exact ⟨key _ hsq.1, key _ hsq.2⟩

/-- One section's output is a fixed linear combination of the input and the
surrounding states. -/
lemma outSeq_eq (c : BiquadCoeffs) (u : ℕ → ℚ) (n : ℕ) :
    outSeq c u n =
      c.b0 * (u n - c.a1 * (stateSeq c u n).z1 - c.a2 * (stateSeq c u n).z2) +
        c.b1 * (stateSeq c u n).z1 + c.b2 * (stateSeq c u n).z2 := rfl

/-- Bounded input gives a bounded output for every stable section, with a
bound depending only on the input bound and the coefficients. -/
lemma outSeq_bound (c : BiquadCoeffs) (hω : c.a1 ^ 2 < 4 * c.a2) (ha2 : c.a2 < 1)
    (M : ℚ) (hM0 : 0 ≤ M) :
    ∃ B, 0 ≤ B ∧ ∀ u : ℕ → ℚ, (∀ n, |u n| ≤ M) → ∀ n, |outSeq c u n| ≤ B := by
  obtain ⟨γ, hγ0, hγ⟩ := stateAbs_bound c hω ha2 M hM0
  have hγM : 0 ≤ γ * M := mul_nonneg hγ0 hM0
  refine ⟨|c.b0| * (M + |c.a1| * (γ * M) + |c.a2| * (γ * M)) +
    |c.b1| * (γ * M) + |c.b2| * (γ * M), ?_, ?_⟩
  · have hsum : 0 ≤ M + |c.a1| * (γ * M) + |c.a2| * (γ * M) := by
      have := mul_nonneg (abs_nonneg c.a1) hγM
      have := mul_nonneg (abs_nonneg c.a2) hγM
      linarith
    have h1 := mul_nonneg (abs_nonneg c.b0) hsum
    have h2 := mul_nonneg (abs_nonneg c.b1) hγM
    have h3 := mul_nonneg (abs_nonneg c.b2) hγM
    linarith
  · intro u hMu n
    obtain ⟨hz1, hz2⟩ := hγ u hMu n
    rw [outSeq_eq]
    have hx : |u n - c.a1 * (stateSeq c u n).z1 - c.a2 * (stateSeq c u n).z2| ≤
        M + |c.a1| * (γ * M) + |c.a2| * (γ * M) := by
      calc |u n - c.a1 * (stateSeq c u n).z1 - c.a2 * (stateSeq c u n).z2|
          ≤ |u n| + |c.a1 * (stateSeq c u n).z1| + |c.a2 * (stateSeq c u n).z2| := by
            have h := abs_add_three (u n) (-(c.a1 * (stateSeq c u n).z1))
              (-(c.a2 * (stateSeq c u n).z2))
            simpa [sub_eq_add_neg] using h
        _ = |u n| + |c.a1| * |(stateSeq c u n).z1| + |c.a2| * |(stateSeq c u n).z2| := by
            rw [abs_mul, abs_mul]
        _ ≤ M + |c.a1| * (γ * M) + |c.a2| * (γ * M) := by
            have e1 := mul_le_mul_of_nonneg_left hz1 (abs_nonneg c.a1)
            have e2 := mul_le_mul_of_nonneg_left hz2 (abs_nonneg c.a2)
            linarith [hMu n]
    calc |c.b0 * (u n - c.a1 * (stateSeq c u n).z1 - c.a2 * (stateSeq c u n).z2) +
          c.b1 * (stateSeq c u n).z1 + c.b2 * (stateSeq c u n).z2|
        ≤ |c.b0 * (u n - c.a1 * (stateSeq c u n).z1 - c.a2 * (stateSeq c u n).z2)| +
          |c.b1 * (stateSeq c u n).z1| + |c.b2 * (stateSeq c u n).z2| :=
          abs_add_three _ _ _
      _ = |c.b0| * |u n - c.a1 * (stateSeq c u n).z1 - c.a2 * (stateSeq c u n).z2| +
          |c.b1| * |(stateSeq c u n).z1| + |c.b2| * |(stateSeq c u n).z2| := by
          rw [abs_mul, abs_mul, abs_mul]
      _ ≤ |c.b0| * (M + |c.a1| * (γ * M) + |c.a2| * (γ * M)) +
          |c.b1| * (γ * M) + |c.b2| * (γ * M) := by
          have e0 := mul_le_mul_of_nonneg_left hx (abs_nonneg c.b0)
          have e1 := mul_le_mul_of_nonneg_left hz1 (abs_nonneg c.b1)
          have e2 := mul_le_mul_of_nonneg_left hz2 (abs_nonneg c.b2)
          linarith

/-- Claim C8: for every input sequence bounded in absolute value by `M ≥ 0`,
there is a bound `B` depending only on `M` and the coefficients such that
the output of each biquad section of `Notch`, `EEGFilter` and `ECGFilter`
(with its hard-coded design coefficients, each section fed the previous
section's output in cascade, starting from zero state) stays within `B` at
every step: bounded input — in particular a long constant input or an
impulse — produces no runaway growth. -/
theorem claim_C8 (M : ℚ) (hM0 : 0 ≤ M) :
    ∃ B, ∀ u : ℕ → ℚ, (∀ n, |u n| ≤ M) → ∀ n,
      |outSeq notchSec1 u n| ≤ B ∧
      |outSeq notchSec2 (outSeq notchSec1 u) n| ≤ B ∧
      |outSeq eegSec u n| ≤ B ∧
      |outSeq ecgSec1 u n| ≤ B ∧
      |outSeq ecgSec2 (outSeq ecgSec1 u) n| ≤ B ∧
      |outSeq ecgSec3 (outSeq ecgSec2 (outSeq ecgSec1 u)) n| ≤ B ∧
      |outSeq ecgSec4 (outSeq ecgSec3 (outSeq ecgSec2 (outSeq ecgSec1 u))) n| ≤ B := by
  obtain ⟨B1, hB1n, hB1⟩ :=
    outSeq_bound notchSec1 (by norm_num [notchSec1]) (by norm_num [notchSec1]) M hM0
  obtain ⟨B2, hB2n, hB2⟩ :=
    outSeq_bound notchSec2 (by norm_num [notchSec2]) (by norm_num [notchSec2]) B1 hB1n
  obtain ⟨B3, hB3n, hB3⟩ :=
    outSeq_bound eegSec (by norm_num [eegSec]) (by norm_num [eegSec]) M hM0
  obtain ⟨B4, hB4n, hB4⟩ :=
    outSeq_bound ecgSec1 (by norm_num [ecgSec1]) (by norm_num [ecgSec1]) M hM0
  obtain ⟨B5, hB5n, hB5⟩ :=
    outSeq_bound ecgSec2 (by norm_num [ecgSec2]) (by norm_num [ecgSec2]) B4 hB4n
  obtain ⟨B6, hB6n, hB6⟩ :=
    outSeq_bound ecgSec3 (by norm_num [ecgSec3]) (by norm_num [ecgSec3]) B5 hB5n
  obtain ⟨B7, hB7n, hB7⟩ :=
    outSeq_bound ecgSec4 (by norm_num [ecgSec4]) (by norm_num [ecgSec4]) B6 hB6n
  refine ⟨max B1 (max B2 (max B3 (max B4 (max B5 (max B6 B7))))), ?_⟩
  intro u hu n
  have o1 := hB1 u hu
  have o2 := hB2 _ o1
  have o3 := hB3 u hu
  have o4 := hB4 u hu
  have o5 := hB5 _ o4
  have o6 := hB6 _ o5
  have o7 := hB7 _ o6
  exact ⟨le_trans (o1 n) (by simp [le_max_iff]),
    le_trans (o2 n) (by simp [le_max_iff]),
    le_trans (o3 n) (by simp [le_max_iff]),
    le_trans (o4 n) (by simp [le_max_iff]),
    le_trans (o5 n) (by simp [le_max_iff]),
    le_trans (o6 n) (by simp [le_max_iff]),
    le_trans (o7 n) (by simp [le_max_iff])⟩

theorem claim_C8_witness :
    ∃ B, ∀ n : ℕ,
      |outSeq notchSec1 (fun _ => 1) n| ≤ B ∧
      |outSeq notchSec2 (outSeq notchSec1 (fun _ => 1)) n| ≤ B ∧
      |outSeq eegSec (fun _ => 1) n| ≤ B ∧
      |outSeq ecgSec1 (fun _ => 1) n| ≤ B ∧
      |outSeq ecgSec2 (outSeq ecgSec1 (fun _ => 1)) n| ≤ B ∧
      |outSeq ecgSec3 (outSeq ecgSec2 (outSeq ecgSec1 (fun _ => 1))) n| ≤ B ∧
      |outSeq ecgSec4 (outSeq ecgSec3 (outSeq ecgSec2 (outSeq ecgSec1 (fun _ => 1)))) n| ≤ B := by
  obtain ⟨B, hB⟩ := claim_C8 1 (by norm_num)
  exact ⟨B, fun n => hB (fun _ => 1) (fun k => by norm_num) n⟩

end Sketch
